import Mathlib

/-!
Verification of the TaskFlow task tracker (src/TaskFlow.pyw) against its
natural-language specification.

The Python source is shallowly embedded: datetimes become integers counting
seconds, Python `timedelta.total_seconds()` becomes integer subtraction, and
`timedelta.days` becomes `Int.fdiv _ 86400` (Python normalises a timedelta so
that its `days` field is the floor of the total duration in days, also for
negative durations).  Fallible Python code (attribute access on `None`,
`list.index` misses) is modelled with `Option`.  Python's `list.sort`, a
stable sort, is modelled by `List.insertionSort`, which is also stable; for a
total preorder a stable sort is extensionally unique, so this is faithful.
Status strings produced by `get_time_info` are modelled by the inductive type
`Status`, one constructor per f-string template of the source; the substring
tests of `get_priority` become predicates on `Status` that hold exactly for
the constructors whose source string contains the tested substring.
-/

namespace TaskFlow

/-- Temporal kind of a task: `date_type` of `TodoItem.__init__`, one of the
strings "instant", "long", "timeless". -/
inductive DateType where
  | instant
  | long
  | timeless
deriving DecidableEq

/-- The task record: fields of class `TodoItem` (TaskFlow.pyw line 532).
`date1`/`date2`/`completed_date` are optional datetimes, modelled as seconds. -/
structure TodoItem where
  id : Nat
  note : String
  date_type : DateType
  date1 : Option Int
  date2 : Option Int
  completed : Bool
  completed_date : Option Int
  created_date : Int
deriving DecidableEq

/-- Units of the human-readable time phrases. -/
inductive TimeUnit where
  | minutes
  | hours
  | days
deriving DecidableEq

/-- Status phrases returned by `TodoItem.get_time_info`, one constructor per
f-string template of the source:
`early u n`       ↦ "超前完成 {n} 分钟/小时/天" (completed early by n)
`late u n`        ↦ "延后完成 {n} 分钟/小时/天" (completed late by n)
`completedOn ts`  ↦ "完成于 {ts}" (completed timeless)
`untilDue u n`    ↦ "距离截止还有 {n} ..." (time remaining until due)
`overdue u n`     ↦ "已逾期 {n} ..." (overdue by n)
`dueToday`        ↦ "今天到期"
`untilStart u n`  ↦ "距离开始还有 {n} ..." (time remaining until start)
`untilEnd u n`    ↦ "距离结束还有 {n} ..." (time remaining until end)
`noTimeLimit`     ↦ "无时间限制" (incomplete timeless). -/
inductive Status where
  | early (u : TimeUnit) (n : Int)
  | late (u : TimeUnit) (n : Int)
  | completedOn (ts : Int)
  | untilDue (u : TimeUnit) (n : Int)
  | overdue (u : TimeUnit) (n : Int)
  | dueToday
  | untilStart (u : TimeUnit) (n : Int)
  | untilEnd (u : TimeUnit) (n : Int)
  | noTimeLimit
deriving DecidableEq

/-- The threshold pattern `get_time_info` repeats verbatim for every phrase:
below an hour the count of whole minutes, below a day the count of whole
hours, otherwise the day count `d` taken from `timedelta.days` by the caller.
`ts` is the non-negative total of seconds, so Lean's t-division equals the
floor division of the source. -/
def phraseOf (mk : TimeUnit → Int → Status) (ts : Int) (d : Int) : Status :=
  if ts < 3600 then mk .minutes (ts / 60)
  else if ts < 86400 then mk .hours (ts / 3600)
  else mk .days d

/-- Completed-task phrase of `get_time_info` at lines 594-644 (instant) and
654-704 (long), for `diff = completed_date - due_date` in seconds.  In the
source the branch on `abs(total_seconds) <= 6*3600` first assigns a
provisional "准时完成" string and then unconditionally overwrites it with the
very same minutes/hours/days computation as the other branch (the source
comment says the card display keeps the original logic), so both arms reduce
to this single computation.  In the early branch the source reassigns
`total_seconds = abs(total_seconds)` (here `-diff`) for the minute and hour
thresholds but takes the day count from the original signed timedelta as
`-time_diff.days`, i.e. `-(Int.fdiv diff 86400)`. -/
def completedPhrase (diff : Int) : Status :=
  if diff < 0 then phraseOf .early (-diff) (-(Int.fdiv diff 86400))
  else phraseOf .late diff (Int.fdiv diff 86400)

/-- Status component of `TodoItem.get_time_info` (line 580), with the current
time passed explicitly (the source samples `datetime.now()`).  `none` models a
raised exception: the source crashes when it subtracts or formats a `None`
anchor (for a completed instant task it formats `date1`, for a completed long
task it formats both `date1` and `date2`, for open timed tasks it formats and
compares the anchors of the kind).  A task with `completed = True` but no
`completed_date` falls through to the open-task logic, as in the source
condition `if self.completed and self.completed_date`. -/
def get_time_info_status (t : TodoItem) (now : Int) : Option Status :=
  match t.completed, t.completed_date with
  | true, some cd =>
    match t.date_type with
    | .instant =>
      match t.date1 with
      | some d1 => some (completedPhrase (cd - d1))
      | none => none
    | .long =>
      match t.date1, t.date2 with
      | some _, some d2 => some (completedPhrase (cd - d2))
      | _, _ => none
    | .timeless => some (.completedOn cd)
  | _, _ =>
    match t.date_type with
    | .instant =>
      match t.date1 with
      | some d1 =>
        if now < d1 then some (phraseOf .untilDue (d1 - now) (Int.fdiv (d1 - now) 86400))
        else if d1 < now then some (phraseOf .overdue (now - d1) (Int.fdiv (now - d1) 86400))
        else some .dueToday
      | none => none
    | .long =>
      match t.date1, t.date2 with
      | some d1, some d2 =>
        if now < d1 then some (phraseOf .untilStart (d1 - now) (Int.fdiv (d1 - now) 86400))
        else if d1 ≤ now ∧ now ≤ d2 then
          some (phraseOf .untilEnd (d2 - now) (Int.fdiv (d2 - now) 86400))
        else some (phraseOf .overdue (now - d2) (Int.fdiv (now - d2) 86400))
      | _, _ => none
    | .timeless => some .noTimeLimit

/-- Aggregate completion buckets used by `export_completed_tasks`. -/
inductive Bucket where
  | onTime
  | early
  | late
  | timeless
deriving DecidableEq

/-- Classification of one completed task by the grouping loop of
`export_completed_tasks` (lines 2951-2969): timeless tasks go to the timeless
bucket, otherwise `diff = completed_date - due` with due `date1` for instant
and `date2` for long; `abs(diff) <= 6*3600` is on time, negative is early,
the rest late.  `none` models the `TypeError` raised when `completed_date` or
the due anchor is `None`. -/
def bucket_of (item : TodoItem) : Option Bucket :=
  if item.date_type = .timeless then some .timeless
  else
    match (if item.date_type = .instant then item.date1 else item.date2),
        item.completed_date with
    | some due, some cd =>
      let diff := cd - due
      if |diff| ≤ 6 * 3600 then some .onTime
      else if diff < 0 then some .early
      else some .late
    | _, _ => none

/-- The Python test `"逾期" in status` of `get_priority`: the substring 逾期
occurs exactly in the "已逾期 ..." strings, i.e. the `overdue` constructors. -/
def statusMentionsOverdue : Status → Bool
  | .overdue _ _ => true
  | _ => false

/-- The Python test `"距离结束" in status` of `get_priority`: that substring
occurs exactly in the "距离结束还有 ..." strings, i.e. `untilEnd`. -/
def statusMentionsUntilEnd : Status → Bool
  | .untilEnd _ _ => true
  | _ => false

/-- Sort key of one task, from `get_priority` inside `refresh_display`
(lines 2720-2746).  The key is a pair (tier, datetime); the second component
is an `Option Int` in which `none` stands for the sentinel `datetime.max`
(which compares above every real datetime), so the source expressions
`item.completed_date if item.completed_date else datetime.max` and
`datetime.max` itself become `item.completed_date` and `none`.  The outer
`none` models the exception that `get_time_info` would raise on a malformed
task (the source calls it before everything else). -/
def get_priority (item : TodoItem) (now : Int) : Option (Nat × Option Int) :=
  match get_time_info_status item now with
  | none => none
  | some status =>
    if item.completed then some (3, item.completed_date)
    else if item.date_type = .timeless then some (2, none)
    else if statusMentionsOverdue status then
      if item.date_type = .instant then some (0, item.date1) else some (0, item.date2)
    else if statusMentionsUntilEnd status then some (1, item.date2)
    else
      if item.date_type = .instant then some (2, item.date1) else some (2, item.date1)

/-- Order on optional datetimes in which `none` is the sentinel
`datetime.max`, larger than every real datetime. -/
def dtLE (a b : Option Int) : Bool :=
  match a, b with
  | _, none => true
  | none, some _ => false
  | some x, some y => x ≤ y

/-- Lexicographic order on priority keys, as Python compares
(int, datetime) tuples. -/
def keyLE (a b : Nat × Option Int) : Bool :=
  if a.1 < b.1 then true
  else if a.1 = b.1 then dtLE a.2 b.2
  else false

/-- Order on the possibly-failing priority keys.  A `none` key models a crash
and is never compared in a valid run; it is placed at the bottom so that the
relation stays total and transitive. -/
def priority_le (a b : Option (Nat × Option Int)) : Bool :=
  match a, b with
  | none, _ => true
  | some _, none => false
  | some x, some y => keyLE x y

/-- Comparison relation `self.todo_items.sort(key=get_priority)` sorts by. -/
def priorityRel (now : Int) (a b : TodoItem) : Prop :=
  priority_le (get_priority a now) (get_priority b now) = true

instance (now : Int) : DecidableRel (priorityRel now) :=
  fun _ _ => inferInstanceAs (Decidable (_ = true))

/-- Display ordering of the open tasks: the stable in-place sort
`self.todo_items.sort(key=get_priority)` of `refresh_display` (line 2749),
modelled by the stable `insertionSort`. -/
def order (items : List TodoItem) (now : Int) : List TodoItem :=
  items.insertionSort (priorityRel now)

/-- The per-user session state: the open master list `todo_items`, the
completed list `completed_items` and the id counter `next_id`. -/
structure AppState where
  todo_items : List TodoItem
  completed_items : List TodoItem
  next_id : Nat
deriving DecidableEq

/-- Effect of `refresh_display` (line 2701) on the task collections: the
master list is sorted in place by `get_priority` (line 2749); everything else
the method does is widget redrawing.  The completed tab is rendered from a
`sorted(...)` copy, which does not mutate `completed_items`. -/
def refresh_display (st : AppState) (now : Int) : AppState :=
  { st with todo_items := order st.todo_items now }

/-- Sort key the specification assigns to an open task, written from the
spec's words (section 4.3) for the refinement comparison with `get_priority`:
tier 0 for overdue tasks (Instant with now strictly after anchor1, Spanning
with now strictly after anchor2) with the due timestamp as tiebreak; tier 1
for ongoing Spanning tasks (start ≤ now ≤ end) with the end timestamp as
tiebreak; tier 2 for everything else, with the relevant start/due timestamp
for timed tasks and the infinitely-late sentinel (`none`) for Timeless. -/
def specKey (t : TodoItem) (now : Int) : Nat × Option Int :=
  match t.date_type with
  | .instant =>
    if t.date1.any (fun d1 => d1 < now) then (0, t.date1) else (2, t.date1)
  | .long =>
    if t.date2.any (fun d2 => d2 < now) then (0, t.date2)
    else if t.date1.any (fun d1 => d1 ≤ now) ∧ t.date2.any (fun d2 => now ≤ d2) then
      (1, t.date2)
    else (2, t.date1)
  | .timeless => (2, none)

/-- Validity of an open task, as far as the classifier and scheduler touch its
fields: not completed, an instant task has its due anchor, and a long task has
both anchors with the end strictly after the start (the spec invariant
anchor2 > anchor1). -/
def validOpen (t : TodoItem) : Bool :=
  !t.completed &&
    match t.date_type with
    | .instant => t.date1.isSome
    | .long =>
      match t.date1, t.date2 with
      | some d1, some d2 => d1 < d2
      | _, _ => false
    | .timeless => true

/-- Membership test of the groups of `get_same_group_items`: same kind, open,
and identical anchors of the kind, relative to the reference task `t`. -/
def sameGroupPred (t x : TodoItem) : Bool :=
  match t.date_type with
  | .timeless => x.date_type == .timeless && !x.completed
  | .instant => x.date_type == .instant && !x.completed && x.date1 == t.date1
  | .long =>
    x.date_type == .long && !x.completed && x.date1 == t.date1 && x.date2 == t.date2

/-- The second, shadowing definition of `get_same_group_items` (line 2304):
an empty sequence for a completed task, otherwise the open tasks of the
master list with the same kind and anchors, in master-list order. -/
def get_same_group_items (l : List TodoItem) (t : TodoItem) : List TodoItem :=
  if t.completed then []
  else
    match t.date_type with
    | .timeless => l.filter (fun i => i.date_type == .timeless && !i.completed)
    | .instant =>
      l.filter (fun i => i.date_type == .instant && !i.completed && i.date1 == t.date1)
    | .long =>
      l.filter (fun i =>
        i.date_type == .long && !i.completed && i.date1 == t.date1 && i.date2 == t.date2)

/-- Comparison used by the first definition's
`same_group_items.sort(key=lambda x: self.todo_items.index(x))`. -/
def indexRel (l : List TodoItem) (a b : TodoItem) : Prop :=
  l.indexOf a ≤ l.indexOf b

instance (l : List TodoItem) : DecidableRel (indexRel l) :=
  fun _ _ => inferInstanceAs (Decidable (_ ≤ _))

/-- The first, shadowed definition of `get_same_group_items` (line 2275): the
same filters as the second, followed by a stable sort of the result by
master-list position. -/
def get_same_group_items_first (l : List TodoItem) (t : TodoItem) : List TodoItem :=
  if t.completed then []
  else
    let items : List TodoItem :=
      match t.date_type with
      | .timeless => l.filter (fun i => i.date_type == .timeless && !i.completed)
      | .instant =>
        l.filter (fun i => i.date_type == .instant && !i.completed && i.date1 == t.date1)
      | .long =>
        l.filter (fun i =>
          i.date_type == .long && !i.completed && i.date1 == t.date1 &&
            i.date2 == t.date2)
    items.insertionSort (indexRel l)

/-- Effect of `move_to_top` (line 2241) on the master list.  The task object
passed by the UI is identified with its value; `List.erase`, like Python's
`list.remove`, drops the first occurrence.  Python computes the insertion
index `self.todo_items.index(first_group_item)` after the removal, exactly as
here.  The unreachable `none` arm covers `same_group_items[0]` on an empty
group, which the length guard rules out. -/
def move_to_top (l : List TodoItem) (t : TodoItem) : List TodoItem :=
  if (get_same_group_items l t).length ≤ 1 then l
  else if (get_same_group_items l t).indexOf t = 0 then l
  else
    match (get_same_group_items l t).head? with
    | none => l
    | some first => (l.erase t).insertIdx ((l.erase t).indexOf first) t

/-- Effect of `move_up_item` (line 2330) on the master list: swap the task
with its predecessor inside the group, by positions in the master list.  The
Python tuple assignment first reads both old elements and then writes them
back crosswise; the unreachable fallback arms model the `IndexError` paths
that the guards rule out. -/
def move_up_item (l : List TodoItem) (t : TodoItem) : List TodoItem :=
  if (get_same_group_items l t).length ≤ 1 then l
  else if (get_same_group_items l t).indexOf t = 0 then l
  else
    match (get_same_group_items l t)[(get_same_group_items l t).indexOf t - 1]? with
    | none => l
    | some prev =>
      match l[l.indexOf t]?, l[l.indexOf prev]? with
      | some a, some b => (l.set (l.indexOf t) b).set (l.indexOf prev) a
      | _, _ => l

/-- Repeated application of `move_up_item` until it is a no-op, with explicit
fuel (any fuel of at least the group size reaches the fixpoint). -/
def move_up_star : Nat → List TodoItem → TodoItem → List TodoItem
  | 0, l, _ => l
  | n + 1, l, t =>
    let l2 := move_up_item l t
    if l2 = l then l else move_up_star n l2 t

/-- Effect of `toggle_completion` (line 2377).  Python mutates the fields of
the passed object before moving it between the two lists, so the value
appended to the destination list carries the new fields, while `list.remove`
drops that same object from the source list; with value semantics the removal
erases the first occurrence of the old value. -/
def toggle_completion (st : AppState) (item : TodoItem) (now : Int) : AppState :=
  if item.completed = false then
    let item2 := { item with completed := true, completed_date := some now }
    { st with
      completed_items := st.completed_items ++ [item2],
      todo_items := st.todo_items.erase item }
  else
    let item2 := { item with completed := false, completed_date := none }
    { st with
      todo_items := st.todo_items ++ [item2],
      completed_items := st.completed_items.erase item }

/-- Date/time input of an add or edit command, after the text fields have
been read.  `timeOk` is the result of `validate_time_format` on the time
text; the `Option Int` carries the result of `parse_datetime`, with `none`
for malformed date text.  Long inputs carry the flags and parses of the start
and of the end. -/
inductive DateInput where
  | instant (timeOk : Bool) (parsed : Option Int)
  | long (startTimeOk endTimeOk : Bool) (startParsed endParsed : Option Int)
  | timeless
deriving DecidableEq

/-- Effect of `add_todo_item` (line 1957) on the session state: reject when
the note is empty, the time text is malformed, a date fails to parse, or a
long input has `end_time <= start_time`; otherwise append a fresh task and
advance `next_id`.  The rejecting branches only show a message box. -/
def add_todo_item (st : AppState) (note : String) (inp : DateInput)
    (createdAt : Int) : AppState :=
  if note.isEmpty then st
  else
    match inp with
    | .instant timeOk parsed =>
      if !timeOk then st
      else
        match parsed with
        | none => st
        | some d =>
          { st with
            todo_items := st.todo_items ++
              [⟨st.next_id, note, .instant, some d, none, false, none, createdAt⟩],
            next_id := st.next_id + 1 }
    | .long sOk eOk sParsed eParsed =>
      if !sOk || !eOk then st
      else
        match sParsed, eParsed with
        | some s, some e =>
          if e ≤ s then st
          else
            { st with
              todo_items := st.todo_items ++
                [⟨st.next_id, note, .long, some s, some e, false, none, createdAt⟩],
              next_id := st.next_id + 1 }
        | _, _ => st
    | .timeless =>
      { st with
        todo_items := st.todo_items ++
          [⟨st.next_id, note, .timeless, none, none, false, none, createdAt⟩],
        next_id := st.next_id + 1 }

/-- Effect of the `save_changes` closure of `edit_item` (line 2599) on the
task at position `i` of the master list: reject when the note is empty, the
edit dialog's widgets are missing (`widgetsOk`, the `date_widgets` existence
checks), the time text is malformed, a date fails to parse, or a long input
has `end_time <= start_time`; otherwise overwrite note, kind and anchors of
the record in place.  An instant edit clears `date2`, a timeless edit clears
both anchors. -/
def save_changes (st : AppState) (i : Nat) (note : String) (widgetsOk : Bool)
    (inp : DateInput) : AppState :=
  if note.isEmpty then st
  else if !widgetsOk then st
  else
    match inp with
    | .instant timeOk parsed =>
      if !timeOk then st
      else
        match parsed with
        | none => st
        | some d =>
          { st with
            todo_items := st.todo_items.modify (fun t =>
              { t with note := note, date_type := DateType.instant, date1 := some d, date2 := none }) i }
    | .long sOk eOk sParsed eParsed =>
      if !sOk || !eOk then st
      else
        match sParsed, eParsed with
        | some s, some e =>
          if e ≤ s then st
          else
            { st with
              todo_items := st.todo_items.modify (fun t =>
                { t with note := note, date_type := DateType.long, date1 := some s, date2 := some e }) i }
        | _, _ => st
    | .timeless =>
      { st with
        todo_items := st.todo_items.modify (fun t =>
          { t with note := note, date_type := DateType.timeless, date1 := none, date2 := none }) i }

/-- Effect of `load_data` (line 3056) on the session state.  The persisted
file is given pre-parsed: `none` for a missing file or a `json.load` failure,
otherwise the two arrays with each entry either a parsed record or `none` for
an entry on which `TodoItem.from_dict` raises, plus the stored `next_id`.
The source builds the open list first and assigns it to `self.todo_items`,
then builds the completed list, then assigns `next_id` and finally raises it
above the maximal present id; an exception anywhere jumps to the handler,
which only prints a warning — so a corrupt completed entry leaves the already
assigned open list in place while everything later keeps its prior value. -/
def load_data (prev : AppState)
    (file : Option (List (Option TodoItem) × List (Option TodoItem) × Nat)) :
    AppState :=
  match file with
  | none => prev
  | some (rawTodos, rawCompleted, storedNext) =>
    match rawTodos.mapM id with
    | none => prev
    | some todos =>
      match rawCompleted.mapM id with
      | none => { prev with todo_items := todos }
      | some completed =>
        let all := todos ++ completed
        let maxId := (all.map TodoItem.id).foldl max 0
        { todo_items := todos, completed_items := completed,
          next_id := if all.isEmpty then storedNext else max (maxId + 1) storedNext }

/-- Example list for the scheduler claims: one timeless task, one not-yet-due
instant task, one ongoing span and one overdue instant task, in that
insertion order. -/
def c1Tasks : List TodoItem :=
  [⟨4, "d", .timeless, none, none, false, none, 0⟩,
    ⟨3, "c", .instant, some 200, none, false, none, 0⟩,
    ⟨2, "b", .long, some 0, some 100, false, none, 0⟩,
    ⟨1, "a", .instant, some 0, none, false, none, 0⟩]

/-- Example tasks for the reorder claims: the first two instant tasks share
the anchor 10, the third has the different anchor 99. -/
def c4First : TodoItem := ⟨1, "a", .instant, some 10, none, false, none, 0⟩

/-- Second member of the shared-anchor group of the reorder examples. -/
def c4Outsider : TodoItem := ⟨2, "b", .instant, some 99, none, false, none, 0⟩

/-- Third task of the reorder examples, grouped with `c4First`. -/
def c4Target : TodoItem := ⟨3, "c", .instant, some 10, none, false, none, 0⟩

/-- Master list interleaving an outsider between the two group members. -/
def c4Tasks : List TodoItem := [c4First, c4Outsider, c4Target]

/-- Example tasks for the frame claim: two instant tasks with anchor 10 and a
third with the unrelated anchor 99, in insertion order group-first,
group-second, outsider. -/
def c8First : TodoItem := ⟨1, "a", .instant, some 10, none, false, none, 0⟩

/-- Second member of the shared-anchor pair of the frame example. -/
def c8Second : TodoItem := ⟨2, "b", .instant, some 10, none, false, none, 0⟩

/-- The unrelated-anchor task of the frame example. -/
def c8Other : TodoItem := ⟨3, "c", .instant, some 99, none, false, none, 0⟩

/-- Master list of the frame example. -/
def c8Tasks : List TodoItem := [c8First, c8Second, c8Other]

/-- Completed timeless task of the toggle examples, finished at time 5. -/
def c10C : TodoItem := ⟨1, "a", .timeless, none, none, true, some 5, 0⟩

/-- Second completed timeless task of the toggle examples. -/
def c10D : TodoItem := ⟨2, "b", .timeless, none, none, true, some 6, 0⟩

/-- Open instant task of the load example. -/
def c6Task : TodoItem := ⟨1, "a", .instant, some 0, none, false, none, 0⟩

/-- Long-span well-formedness of a master list: every long task carries both
anchors with the end strictly after the start (the spec invariant
anchor2 > anchor1). -/
def spansOrdered (l : List TodoItem) : Prop :=
  ∀ t ∈ l, t.date_type = .long →
    ∃ a b, t.date1 = some a ∧ t.date2 = some b ∧ a < b

theorem dtLE_total (a b : Option Int) : dtLE a b = true ∨ dtLE b a = true := by
  rcases a with _ | x <;> rcases b with _ | y <;> simp [dtLE] <;> omega

theorem dtLE_trans {a b c : Option Int} (h1 : dtLE a b = true) (h2 : dtLE b c = true) :
    dtLE a c = true := by
  rcases a with _ | x <;> rcases b with _ | y <;> rcases c with _ | z <;>
    simp [dtLE] at * <;> omega

theorem dtLE_refl (a : Option Int) : dtLE a a = true := by
  rcases a with _ | x <;> simp [dtLE]

theorem keyLE_iff (a b : Nat × Option Int) :
    keyLE a b = true ↔ (a.1 < b.1 ∨ (a.1 = b.1 ∧ dtLE a.2 b.2 = true)) := by
  unfold keyLE
  split_ifs with h1 h2
  · simp [h1]
  · simp [h1, h2]
  · simp [h1, h2]

theorem keyLE_total (a b : Nat × Option Int) : keyLE a b = true ∨ keyLE b a = true := by
  rw [keyLE_iff, keyLE_iff]
  rcases Nat.lt_trichotomy a.1 b.1 with h | h | h
  · exact Or.inl (Or.inl h)
  · rcases dtLE_total a.2 b.2 with h2 | h2
    · exact Or.inl (Or.inr ⟨h, h2⟩)
    · exact Or.inr (Or.inr ⟨h.symm, h2⟩)
  · exact Or.inr (Or.inl h)

theorem keyLE_trans {a b c : Nat × Option Int} (h1 : keyLE a b = true)
    (h2 : keyLE b c = true) : keyLE a c = true := by
  rw [keyLE_iff] at h1 h2 ⊢
  rcases h1 with h1 | ⟨e1, d1⟩
  · rcases h2 with h2 | ⟨e2, d2⟩
    · exact Or.inl (lt_trans h1 h2)
    · exact Or.inl (e2 ▸ h1)
  · rcases h2 with h2 | ⟨e2, d2⟩
    · exact Or.inl (e1 ▸ h2)
    · exact Or.inr ⟨e1.trans e2, dtLE_trans d1 d2⟩

theorem keyLE_refl (a : Nat × Option Int) : keyLE a a = true := by
  simp [keyLE, dtLE_refl]

theorem priority_le_total (a b : Option (Nat × Option Int)) :
    priority_le a b = true ∨ priority_le b a = true := by
  rcases a with _ | x <;> rcases b with _ | y <;> simp [priority_le]
  exact keyLE_total x y

theorem priority_le_trans {a b c : Option (Nat × Option Int)}
    (h1 : priority_le a b = true) (h2 : priority_le b c = true) :
    priority_le a c = true := by
  rcases a with _ | x <;> rcases b with _ | y <;> rcases c with _ | z <;>
    simp [priority_le] at *
  exact keyLE_trans h1 h2

theorem priority_le_refl (a : Option (Nat × Option Int)) : priority_le a a = true := by
  rcases a with _ | x <;> simp [priority_le, keyLE_refl]

instance (now : Int) : IsTotal TodoItem (priorityRel now) :=
  ⟨fun a b => priority_le_total _ _⟩

instance (now : Int) : IsTrans TodoItem (priorityRel now) :=
  ⟨fun _ _ _ => priority_le_trans⟩

theorem order_perm (l : List TodoItem) (now : Int) : (order l now).Perm l :=
  List.perm_insertionSort _ _

theorem order_pairwise (l : List TodoItem) (now : Int) :
    (order l now).Pairwise (priorityRel now) :=
  List.sorted_insertionSort _ _

/-- A stable sort leaves every already-pairwise-related filtration in place:
the filtered subsequence of the output equals the filtered subsequence of the
input. -/
theorem insertionSort_filter_invariant {r : TodoItem → TodoItem → Prop}
    [DecidableRel r] (l : List TodoItem) (p : TodoItem → Bool)
    (h : (l.filter p).Pairwise r) :
    (l.insertionSort r).filter p = l.filter p := by
  have hself : (l.filter p).filter p = l.filter p :=
    List.filter_eq_self.mpr (fun a ha => (List.mem_filter.mp ha).2)
  have h1 : List.Sublist (l.filter p) (l.insertionSort r) :=
    List.sublist_insertionSort h (List.filter_sublist l)
  have h3 : List.Sublist (l.filter p) ((l.insertionSort r).filter p) := by
    have := h1.filter p
    rwa [hself] at this
  have h2 : ((l.insertionSort r).filter p).Perm (l.filter p) :=
    (List.perm_insertionSort r l).filter p
  exact (h3.eq_of_length h2.length_eq.symm).symm

theorem index_le_total (l : List TodoItem) :
    ∀ a b, indexRel l a b ∨ indexRel l b a := by
  intro a b
  unfold indexRel
  omega

instance (l : List TodoItem) : IsTotal TodoItem (indexRel l) :=
  ⟨index_le_total l⟩

instance (l : List TodoItem) : IsTrans TodoItem (indexRel l) :=
  ⟨fun _ _ _ h1 h2 => Nat.le_trans h1 h2⟩

theorem mentions_phraseOf_overdue (ts d : Int) :
    statusMentionsOverdue (phraseOf Status.overdue ts d) = true
      ∧ statusMentionsUntilEnd (phraseOf Status.overdue ts d) = false := by
  unfold phraseOf
  split_ifs <;> exact ⟨rfl, rfl⟩

theorem mentions_phraseOf_untilDue (ts d : Int) :
    statusMentionsOverdue (phraseOf Status.untilDue ts d) = false
      ∧ statusMentionsUntilEnd (phraseOf Status.untilDue ts d) = false := by
  unfold phraseOf
  split_ifs <;> exact ⟨rfl, rfl⟩

theorem mentions_phraseOf_untilStart (ts d : Int) :
    statusMentionsOverdue (phraseOf Status.untilStart ts d) = false
      ∧ statusMentionsUntilEnd (phraseOf Status.untilStart ts d) = false := by
  unfold phraseOf
  split_ifs <;> exact ⟨rfl, rfl⟩

theorem mentions_phraseOf_untilEnd (ts d : Int) :
    statusMentionsOverdue (phraseOf Status.untilEnd ts d) = false
      ∧ statusMentionsUntilEnd (phraseOf Status.untilEnd ts d) = true := by
  unfold phraseOf
  split_ifs <;> exact ⟨rfl, rfl⟩

theorem get_priority_eq_specKey (t : TodoItem) (now : Int) (h : validOpen t = true) :
    get_priority t now = some (specKey t now) := by
  rcases t with ⟨i, nt, dt, d1, d2, c, cd, cr⟩
  simp only [validOpen, Bool.and_eq_true, Bool.not_eq_true'] at h
  obtain ⟨hc, hk⟩ := h
  subst hc
  cases dt with
  | timeless =>
    simp [get_priority, get_time_info_status, specKey]
  | instant =>
    rcases d1 with _ | a
    · simp at hk
    · simp only [get_priority, get_time_info_status, specKey]
      rcases lt_trichotomy now a with hlt | heq | hgt
      · rw [if_pos hlt]
        simp [mentions_phraseOf_untilDue, show ¬ a < now from by omega]
      · rw [if_neg (by omega), if_neg (by omega)]
        simp [statusMentionsOverdue, statusMentionsUntilEnd,
          show ¬ a < now from by omega]
      · rw [if_neg (by omega), if_pos hgt]
        simp [mentions_phraseOf_overdue, hgt]
  | long =>
    rcases d1 with _ | a
    · simp at hk
    rcases d2 with _ | b
    · simp at hk
    have hab : a < b := by simpa using hk
    simp only [get_priority, get_time_info_status, specKey]
    by_cases h1 : now < a
    · rw [if_pos h1]
      simp [mentions_phraseOf_untilStart, show ¬ b < now from by omega,
        show ¬ a ≤ now from by omega]
    · by_cases h2 : now ≤ b
      · rw [if_neg h1, if_pos ⟨by omega, h2⟩]
        simp [mentions_phraseOf_untilEnd, show ¬ b < now from by omega,
          show a ≤ now from by omega, h2]
      · rw [if_neg h1, if_neg (fun hcon => h2 hcon.2)]
        simp [mentions_phraseOf_overdue, show b < now from by omega]

/-- C1: for every finite list of valid open tasks and every now, the display
ordering sorts by the pair (tier, tiebreak) exactly as specified: the key
`get_priority` computes agrees with the spec's key `specKey` (tier 0 for
overdue with the due timestamp as tiebreak, tier 1 for ongoing spans with the
end timestamp, tier 2 for the rest with the start/due timestamp and the
infinitely-late sentinel for timeless tasks); the produced sequence is a
permutation of the input, is sorted by that key (in particular tiers are
non-decreasing, so every overdue task precedes every ongoing task and every
ongoing task precedes every not-yet-due or timeless task), and the sort is
stable: tasks with equal keys keep their insertion order. -/
theorem c1_scheduler_orders_by_tier_and_tiebreak
    (l : List TodoItem) (now : Int) (h : ∀ t ∈ l, validOpen t = true) :
    (∀ t ∈ l, get_priority t now = some (specKey t now))
    ∧ (order l now).Perm l
    ∧ (order l now).Pairwise (fun a b => keyLE (specKey a now) (specKey b now) = true)
    ∧ (order l now).Pairwise (fun a b => (specKey a now).1 ≤ (specKey b now).1)
    ∧ (∀ k : Nat × Option Int,
        (order l now).filter (fun t => decide (specKey t now = k)) =
          l.filter (fun t => decide (specKey t now = k))) := by
  have hkey : ∀ t ∈ l, get_priority t now = some (specKey t now) :=
    fun t ht => get_priority_eq_specKey t now (h t ht)
  have hmem : ∀ t ∈ order l now, t ∈ l := fun t ht => (order_perm l now).subset ht
  have hpw : (order l now).Pairwise
      (fun a b => keyLE (specKey a now) (specKey b now) = true) := by
    refine (order_pairwise l now).imp_of_mem ?_
    intro a b ha hb hr
    have hra := hkey a (hmem a ha)
    have hrb := hkey b (hmem b hb)
    simpa [priorityRel, hra, hrb, priority_le] using hr
  refine ⟨hkey, order_perm l now, hpw, ?_, ?_⟩
  · refine hpw.imp ?_
    intro a b hab
    rcases (keyLE_iff _ _).mp hab with h1 | ⟨h1, _⟩
    · omega
    · omega
  · intro k
    apply insertionSort_filter_invariant
    apply List.pairwise_of_forall_mem_list
    intro a ha b hb
    have ha2 := List.mem_filter.mp ha
    have hb2 := List.mem_filter.mp hb
    have hka : specKey a now = k := by simpa using ha2.2
    have hkb : specKey b now = k := by simpa using hb2.2
    have h1 := hkey a ha2.1
    have h2 := hkey b hb2.1
    simp [priorityRel, h1, h2, priority_le, hka, hkb, keyLE_refl]

/-- Witness for C1: a four-task list holding one overdue instant task, one
ongoing span, one not-yet-due instant task and one timeless task, at
now = 50. -/
theorem c1_scheduler_orders_by_tier_and_tiebreak_witness :
    order c1Tasks 50 =
      [⟨1, "a", .instant, some 0, none, false, none, 0⟩,
        ⟨2, "b", .long, some 0, some 100, false, none, 0⟩,
        ⟨3, "c", .instant, some 200, none, false, none, 0⟩,
        ⟨4, "d", .timeless, none, none, false, none, 0⟩]
    ∧ (order c1Tasks 50).Perm c1Tasks
    ∧ get_priority (⟨1, "a", .instant, some 0, none, false, none, 0⟩ : TodoItem) 50 =
      some (specKey (⟨1, "a", .instant, some 0, none, false, none, 0⟩ : TodoItem) 50) :=
  ⟨by decide,
    (c1_scheduler_orders_by_tier_and_tiebreak c1Tasks 50 (by decide)).2.1,
    (c1_scheduler_orders_by_tier_and_tiebreak c1Tasks 50 (by decide)).1 _ (by decide)⟩

theorem indexOf_append_of_not_mem {α : Type} [DecidableEq α] {a : α} {A : List α}
    (B : List α) (h : a ∉ A) : (A ++ B).indexOf a = A.length + B.indexOf a := by
  induction A with
  | nil => simp
  | cons x A ih =>
    have hxa : ¬ (x == a) = true := by
      simp only [beq_iff_eq]
      intro hx
      exact h (hx ▸ List.mem_cons_self x A)
    have hA : a ∉ A := fun hx => h (List.mem_cons_of_mem x hx)
    simp only [List.cons_append, List.indexOf_cons, hxa, cond_false, ih hA,
      List.length_cons]
    omega

theorem getElem?_append_cons {α : Type} (A : List α) (b : α) (B : List α) :
    (A ++ b :: B)[A.length]? = some b := by
  rw [List.getElem?_append_right (le_refl A.length)]
  simp

theorem set_append_cons {α : Type} (A : List α) (b c : α) (B : List α) :
    (A ++ b :: B).set A.length c = A ++ c :: B := by
  induction A with
  | nil => simp
  | cons x A ih => simp [List.set_cons_succ, ih]

theorem insertIdx_append_cons {α : Type} (A : List α) (c : α) (B : List α) :
    (A ++ B).insertIdx A.length c = A ++ c :: B := by
  induction A with
  | nil => simp [List.insertIdx_zero]
  | cons x A ih => simp [List.insertIdx_succ_cons, ih]

theorem perm_insertIdx_of_le {α : Type} {k : Nat} {x : α} {m : List α}
    (h : k ≤ m.length) : (m.insertIdx k x).Perm (x :: m) := by
  induction m generalizing k with
  | nil =>
    have hk : k = 0 := by simpa using h
    subst hk
    simp [List.insertIdx_zero]
  | cons y m ih =>
    cases k with
    | zero => simp [List.insertIdx_zero]
    | succ k =>
      rw [List.insertIdx_succ_cons]
      have hk : k ≤ m.length := by simpa using h
      exact ((ih hk).cons y).trans (List.Perm.swap x y m)

theorem filter_insertIdx_of_neg {α : Type} {p : α → Bool} {x : α}
    (h : p x = false) : ∀ (k : Nat) (m : List α),
    (m.insertIdx k x).filter p = m.filter p := by
  intro k
  induction k with
  | zero =>
    intro m
    simp [List.insertIdx_zero, List.filter_cons, h]
  | succ k ih =>
    intro m
    cases m with
    | nil => rfl
    | cons y m => simp [List.insertIdx_succ_cons, List.filter_cons, ih m]

theorem filter_erase_of_neg {α : Type} [DecidableEq α] {p : α → Bool} {t : α}
    (h : p t = false) : ∀ l : List α, (l.erase t).filter p = l.filter p := by
  intro l
  induction l with
  | nil => rfl
  | cons a l ih =>
    rw [List.erase_cons]
    by_cases hat : a = t
    · subst hat
      simp [List.filter_cons, h]
    · have : ¬ (a == t) = true := by simpa using hat
      simp only [this, if_false]
      simp [List.filter_cons, ih]

theorem filter_set_of_neg {α : Type} {p : α → Bool} {b : α} (hb : p b = false) :
    ∀ (l : List α) (i : Nat), (∀ x, l[i]? = some x → p x = false) →
    (l.set i b).filter p = l.filter p := by
  intro l
  induction l with
  | nil => intro i _; rfl
  | cons a l ih =>
    intro i hi
    cases i with
    | zero =>
      have ha : p a = false := hi a (by simp)
      simp [List.filter_cons, ha, hb]
    | succ i =>
      have : ∀ x, l[i]? = some x → p x = false := by
        intro x hx
        exact hi x (by simpa using hx)
      simp [List.set_cons_succ, List.filter_cons, ih i this]

theorem perm_set_set_swap {α : Type} [DecidableEq α] {l : List α} {i j : Nat}
    {a b : α} (hi : l[i]? = some a) (hj : l[j]? = some b) :
    ((l.set i b).set j a).Perm l := by
  obtain ⟨hilen, hia⟩ := List.getElem?_eq_some_iff.mp hi
  obtain ⟨hjlen, hjb⟩ := List.getElem?_eq_some_iff.mp hj
  rw [List.perm_iff_count]
  intro x
  have hjlen2 : j < (l.set i b).length := by simpa using hjlen
  rw [List.count_set a x (l.set i b) j hjlen2, List.count_set b x l i hilen,
    List.getElem_set hjlen2]
  have hmemi : a ∈ l := hia ▸ List.getElem_mem hilen
  have hmemj : b ∈ l := hjb ▸ List.getElem_mem hjlen
  have hcounti : (l[i] == x) = true → 1 ≤ l.count x := by
    intro hx
    rw [beq_iff_eq] at hx
    exact List.count_pos_iff.mpr (hx ▸ List.getElem_mem hilen)
  have hcountj : (l[j] == x) = true → 1 ≤ l.count x := by
    intro hx
    rw [beq_iff_eq] at hx
    exact List.count_pos_iff.mpr (hx ▸ List.getElem_mem hjlen)
  by_cases hij : i = j
  · subst hij
    rw [if_pos rfl]
    rw [hia] at hcounti ⊢
    by_cases h1 : (a == x) = true <;> by_cases h2 : (b == x) = true <;>
      simp_all <;> omega
  · rw [if_neg hij, hia, hjb]
    by_cases h1 : (a == x) = true <;> by_cases h2 : (b == x) = true <;>
      simp_all <;> omega

theorem sameGroupPred_self {t : TodoItem} (h : t.completed = false) :
    sameGroupPred t t = true := by
  cases ht : t.date_type <;> simp [sameGroupPred, ht, h]

theorem sameGroupPred_eq_timeless (t : TodoItem) (ht : t.date_type = .timeless) :
    sameGroupPred t = fun x => x.date_type == DateType.timeless && !x.completed := by
  funext x
  simp only [sameGroupPred, ht]

theorem sameGroupPred_eq_instant (t : TodoItem) (ht : t.date_type = .instant) :
    sameGroupPred t =
      fun x => x.date_type == DateType.instant && !x.completed && x.date1 == t.date1 := by
  funext x
  simp only [sameGroupPred, ht]

theorem sameGroupPred_eq_long (t : TodoItem) (ht : t.date_type = .long) :
    sameGroupPred t = fun x => x.date_type == DateType.long && !x.completed &&
      x.date1 == t.date1 && x.date2 == t.date2 := by
  funext x
  simp only [sameGroupPred, ht]

theorem gsgi_filter {t : TodoItem} (h : t.completed = false) (l : List TodoItem) :
    get_same_group_items l t = l.filter (sameGroupPred t) := by
  cases ht : t.date_type with
  | timeless =>
    rw [sameGroupPred_eq_timeless t ht]
    simp [get_same_group_items, h, ht]
  | instant =>
    rw [sameGroupPred_eq_instant t ht]
    simp [get_same_group_items, h, ht]
  | long =>
    rw [sameGroupPred_eq_long t ht]
    simp [get_same_group_items, h, ht]

theorem gsgi_first_filter {t : TodoItem} (h : t.completed = false) (l : List TodoItem) :
    get_same_group_items_first l t =
      (l.filter (sameGroupPred t)).insertionSort (indexRel l) := by
  cases ht : t.date_type with
  | timeless =>
    rw [sameGroupPred_eq_timeless t ht]
    simp [get_same_group_items_first, h, ht]
  | instant =>
    rw [sameGroupPred_eq_instant t ht]
    simp [get_same_group_items_first, h, ht]
  | long =>
    rw [sameGroupPred_eq_long t ht]
    simp [get_same_group_items_first, h, ht]

theorem gsgi_decomp (A P R : List TodoItem) (t : TodoItem)
    (hc : t.completed = false)
    (hA : ∀ x ∈ A, sameGroupPred t x = false)
    (hP : ∀ x ∈ P, sameGroupPred t x = true) :
    get_same_group_items (A ++ P ++ t :: R) t =
      P ++ t :: R.filter (sameGroupPred t) := by
  rw [gsgi_filter hc]
  rw [List.filter_append, List.filter_append]
  rw [List.filter_eq_nil_iff.mpr (by simpa using hA),
    List.filter_eq_self.mpr hP]
  rw [List.filter_cons_of_pos (sameGroupPred_self hc)]
  simp

theorem shape_not_mem_facts (A P R : List TodoItem) (t : TodoItem)
    (hnd : (A ++ P ++ t :: R).Nodup) :
    t ∉ A ∧ t ∉ P ∧ t ∉ R ∧ ∀ p ∈ P, p ∉ A := by
  have hnd2 : (A ++ (P ++ t :: R)).Nodup := by
    rw [List.append_assoc] at hnd
    exact hnd
  have hdisjA : A.Disjoint (P ++ t :: R) := List.disjoint_of_nodup_append hnd2
  have hnd3 : (P ++ t :: R).Nodup := hnd2.of_append_right
  have hdisjP : P.Disjoint (t :: R) := List.disjoint_of_nodup_append hnd3
  have hnd4 : (t :: R).Nodup := hnd3.of_append_right
  refine ⟨?_, ?_, ?_, ?_⟩
  · intro hx
    exact hdisjA hx (List.mem_append_right P (List.mem_cons_self t R))
  · intro hx
    exact hdisjP hx (List.mem_cons_self t R)
  · intro hx
    exact (List.nodup_cons.mp hnd4).1 hx
  · intro p hp hpA
    exact hdisjA hpA (List.mem_append_left _ hp)

theorem move_to_top_shape (A P R : List TodoItem) (t : TodoItem)
    (hc : t.completed = false)
    (hA : ∀ x ∈ A, sameGroupPred t x = false)
    (hP : ∀ x ∈ P, sameGroupPred t x = true)
    (hnd : (A ++ P ++ t :: R).Nodup) :
    move_to_top (A ++ P ++ t :: R) t = A ++ t :: (P ++ R) := by
  have hg := gsgi_decomp A P R t hc hA hP
  obtain ⟨htA, htP, htR, hPA⟩ := shape_not_mem_facts A P R t hnd
  cases P with
  | nil =>
    unfold move_to_top
    rw [hg]
    simp only [List.nil_append]
    by_cases hlen : (t :: R.filter (sameGroupPred t)).length ≤ 1
    · simp [hlen]
    · simp [hlen, List.indexOf_cons_self]
  | cons p0 P1 =>
    have hp0A : p0 ∉ A := hPA p0 (List.mem_cons_self p0 P1)
    have hci : (((p0 :: P1) ++ t :: R.filter (sameGroupPred t)).indexOf t) =
        P1.length + 1 := by
      rw [indexOf_append_of_not_mem _ htP, List.indexOf_cons_self]
      simp
    have hlen : ¬ ((p0 :: P1) ++ t :: R.filter (sameGroupPred t)).length ≤ 1 := by
      simp
    have herase : (A ++ (p0 :: P1) ++ t :: R).erase t = A ++ (p0 :: P1) ++ R := by
      rw [List.append_assoc, List.erase_append_right _ htA,
        List.erase_append_right _ htP, List.erase_cons_head, List.append_assoc]
    unfold move_to_top
    simp only [hg, hci, herase]
    rw [if_neg hlen, if_neg (by omega)]
    simp
    rw [indexOf_append_of_not_mem _ hp0A, List.indexOf_cons_self]
    simpa using insertIdx_append_cons A t (p0 :: (P1 ++ R))

theorem move_up_item_shape (A Q R : List TodoItem) (p t : TodoItem)
    (hc : t.completed = false)
    (hA : ∀ x ∈ A, sameGroupPred t x = false)
    (hP : ∀ x ∈ Q ++ [p], sameGroupPred t x = true)
    (hnd : (A ++ (Q ++ [p]) ++ t :: R).Nodup) :
    move_up_item (A ++ (Q ++ [p]) ++ t :: R) t = A ++ Q ++ t :: p :: R := by
  have hg := gsgi_decomp A (Q ++ [p]) R t hc hA hP
  obtain ⟨htA, htP, htR, hPA⟩ := shape_not_mem_facts A (Q ++ [p]) R t hnd
  have hpA : p ∉ A := hPA p (List.mem_append_right Q (List.mem_cons_self p []))
  have hpQ : p ∉ Q := by
    have hnd2 : (Q ++ [p]).Nodup := (hnd.of_append_left).of_append_right
    intro hx
    exact (List.disjoint_of_nodup_append hnd2) hx (List.mem_cons_self p [])
  have htQ : t ∉ Q := fun hx => htP (List.mem_append_left [p] hx)
  have hci : ((Q ++ [p]) ++ t :: R.filter (sameGroupPred t)).indexOf t =
      Q.length + 1 := by
    rw [indexOf_append_of_not_mem _ htP, List.indexOf_cons_self]
    simp
  have hlen : ¬ ((Q ++ [p]) ++ t :: R.filter (sameGroupPred t)).length ≤ 1 := by
    simp
    omega
  have hprev : ((Q ++ [p]) ++ t :: R.filter (sameGroupPred t))[Q.length]? = some p := by
    have : (Q ++ [p]) ++ t :: R.filter (sameGroupPred t) =
        Q ++ p :: t :: R.filter (sameGroupPred t) := by simp
    rw [this]
    exact getElem?_append_cons Q p (t :: R.filter (sameGroupPred t))
  have hti : (A ++ (Q ++ [p]) ++ t :: R).indexOf t = A.length + (Q.length + 1) := by
    rw [List.append_assoc, indexOf_append_of_not_mem _ htA,
      indexOf_append_of_not_mem _ htP, List.indexOf_cons_self]
    simp
  have hpi : (A ++ (Q ++ [p]) ++ t :: R).indexOf p = A.length + Q.length := by
    have : A ++ (Q ++ [p]) ++ t :: R = (A ++ Q) ++ p :: t :: R := by simp
    rw [this, indexOf_append_of_not_mem _ (by
      simp only [List.mem_append]
      rintro (hx | hx)
      · exact hpA hx
      · exact hpQ hx), List.indexOf_cons_self]
    simp
  have hgt : (A ++ (Q ++ [p]) ++ t :: R)[A.length + (Q.length + 1)]? = some t := by
    have h1 : (A ++ (Q ++ [p])).length = A.length + (Q.length + 1) := by simp
    rw [← h1]
    exact getElem?_append_cons (A ++ (Q ++ [p])) t R
  have hgp : (A ++ (Q ++ [p]) ++ t :: R)[A.length + Q.length]? = some p := by
    have h2 : A ++ (Q ++ [p]) ++ t :: R = (A ++ Q) ++ p :: t :: R := by simp
    have h1 : (A ++ Q).length = A.length + Q.length := by simp
    rw [h2, ← h1]
    exact getElem?_append_cons (A ++ Q) p (t :: R)
  have hset : ((A ++ (Q ++ [p]) ++ t :: R).set (A.length + (Q.length + 1)) p).set
      (A.length + Q.length) t = A ++ Q ++ t :: p :: R := by
    have h1 : (A ++ (Q ++ [p])).length = A.length + (Q.length + 1) := by simp
    rw [← h1, set_append_cons (A ++ (Q ++ [p])) t p R]
    have h2 : A ++ (Q ++ [p]) ++ p :: R = (A ++ Q) ++ p :: p :: R := by simp
    have h3 : (A ++ Q).length = A.length + Q.length := by simp
    rw [h2, ← h3, set_append_cons (A ++ Q) p t (p :: R)]
  unfold move_up_item
  simp only [hg, hci]
  rw [if_neg hlen, if_neg (by omega)]
  have hsub : Q.length + 1 - 1 = Q.length := by omega
  rw [hsub, hprev]
  simp only [hti, hpi, hgt, hgp]
  exact hset

theorem move_up_star_succ (n : Nat) (l : List TodoItem) (t : TodoItem) :
    move_up_star (n + 1) l t =
      if move_up_item l t = l then l else move_up_star n (move_up_item l t) t := rfl

theorem move_up_star_of_noop {l : List TodoItem} {t : TodoItem}
    (h : move_up_item l t = l) : ∀ n, move_up_star n l t = l := by
  intro n
  cases n with
  | zero => rfl
  | succ n => rw [move_up_star_succ, if_pos h]

theorem move_up_item_noop_of_first (A R : List TodoItem) (t : TodoItem)
    (hc : t.completed = false)
    (hA : ∀ x ∈ A, sameGroupPred t x = false) :
    move_up_item (A ++ [] ++ t :: R) t = A ++ [] ++ t :: R := by
  have hg := gsgi_decomp A [] R t hc hA (by intro x hx; cases hx)
  unfold move_up_item
  rw [hg]
  simp only [List.nil_append]
  by_cases hlen : (t :: R.filter (sameGroupPred t)).length ≤ 1
  · simp [hlen]
  · simp [hlen, List.indexOf_cons_self]

theorem move_up_star_shape (P : List TodoItem) : ∀ (A R : List TodoItem) (t : TodoItem),
    t.completed = false →
    (∀ x ∈ A, sameGroupPred t x = false) →
    (∀ x ∈ P, sameGroupPred t x = true) →
    (A ++ P ++ t :: R).Nodup →
    move_up_star (P.length + 1) (A ++ P ++ t :: R) t = A ++ t :: (P ++ R) := by
  induction P using List.reverseRecOn with
  | nil =>
    intro A R t hc hA hP hnd
    rw [move_up_star_of_noop (move_up_item_noop_of_first A R t hc hA)]
    simp
  | append_singleton Q p ih =>
    intro A R t hc hA hP hnd
    obtain ⟨htA, htP, htR, hPA⟩ := shape_not_mem_facts A (Q ++ [p]) R t hnd
    have htp : t ≠ p := by
      intro he
      apply htP
      rw [he]
      exact List.mem_append_right Q (List.mem_cons_self p [])
    have hQ : ∀ x ∈ Q, sameGroupPred t x = true :=
      fun x hx => hP x (List.mem_append_left [p] hx)
    have hstep := move_up_item_shape A Q R p t hc hA hP hnd
    have hfuel : (Q ++ [p]).length + 1 = (Q.length + 1) + 1 := by simp
    rw [hfuel, move_up_star_succ, hstep]
    have hne : A ++ Q ++ t :: p :: R ≠ A ++ (Q ++ [p]) ++ t :: R := by
      intro he
      have e1 : (A ++ Q ++ t :: p :: R)[(A ++ Q).length]? = some t :=
        getElem?_append_cons (A ++ Q) t (p :: R)
      have hshape : A ++ (Q ++ [p]) ++ t :: R = (A ++ Q) ++ p :: t :: R := by simp
      have e2 : (A ++ (Q ++ [p]) ++ t :: R)[(A ++ Q).length]? = some p := by
        rw [hshape]
        exact getElem?_append_cons (A ++ Q) p (t :: R)
      rw [he, e2] at e1
      exact htp (Option.some_injective _ e1.symm)
    rw [if_neg hne]
    have hshape2 : A ++ (Q ++ [p]) ++ t :: R = (A ++ Q) ++ p :: t :: R := by simp
    have hnd2 : (A ++ Q ++ t :: p :: R).Nodup := by
      rw [hshape2] at hnd
      exact ((List.Perm.append_left (A ++ Q) (List.Perm.swap t p R)).nodup hnd : _)
    have := ih A (p :: R) t hc hA hQ hnd2
    rw [this]
    simp

theorem move_to_top_noop_of_group_first (l : List TodoItem) (t : TodoItem)
    (h : (get_same_group_items l t).indexOf t = 0) : move_to_top l t = l := by
  unfold move_to_top
  by_cases hlen : (get_same_group_items l t).length ≤ 1
  · rw [if_pos hlen]
  · rw [if_neg hlen, if_pos h]

theorem move_to_top_compute (B C1 C2 : List TodoItem) (g0 t : TodoItem)
    (hc : t.completed = false)
    (hB : ∀ x ∈ B, sameGroupPred t x = false)
    (hg0 : sameGroupPred t g0 = true)
    (hne : t ≠ g0)
    (hnd : (B ++ (g0 :: C1) ++ t :: C2).Nodup) :
    move_to_top (B ++ (g0 :: C1) ++ t :: C2) t =
      B ++ t :: ((g0 :: C1) ++ C2) := by
  obtain ⟨htB, htP, htR, hPB⟩ := shape_not_mem_facts B (g0 :: C1) C2 t hnd
  have hg0B : g0 ∉ B := hPB g0 (List.mem_cons_self g0 C1)
  have hgcomp : get_same_group_items (B ++ (g0 :: C1) ++ t :: C2) t =
      g0 :: (C1.filter (sameGroupPred t) ++ t :: C2.filter (sameGroupPred t)) := by
    rw [gsgi_filter hc]
    simp only [List.filter_append, List.filter_eq_nil_iff.mpr (by simpa using hB),
      List.filter_cons_of_pos hg0, List.filter_cons_of_pos (sameGroupPred_self hc)]
    simp
  have hg0t : (g0 == t) = false := by
    simp only [beq_eq_false_iff_ne]
    exact fun he => hne he.symm
  have hci : (g0 :: (C1.filter (sameGroupPred t) ++
      t :: C2.filter (sameGroupPred t))).indexOf t ≠ 0 := by
    rw [List.indexOf_cons, hg0t]
    simp
  have hlen : ¬ (g0 :: (C1.filter (sameGroupPred t) ++
      t :: C2.filter (sameGroupPred t))).length ≤ 1 := by
    simp
  have herase : (B ++ (g0 :: C1) ++ t :: C2).erase t = B ++ (g0 :: C1) ++ C2 := by
    rw [List.append_assoc, List.erase_append_right _ htB,
      List.erase_append_right _ htP, List.erase_cons_head, List.append_assoc]
  unfold move_to_top
  rw [hgcomp, if_neg hlen, if_neg hci]
  simp only [List.head?_cons, herase]
  rw [List.append_assoc, List.cons_append, indexOf_append_of_not_mem _ hg0B,
    List.indexOf_cons_self]
  simpa using insertIdx_append_cons B t (g0 :: (C1 ++ C2))

theorem move_to_top_idem (l : List TodoItem) (t : TodoItem)
    (hnd : l.Nodup) (ht : t ∈ l) :
    move_to_top (move_to_top l t) t = move_to_top l t := by
  by_cases hc : t.completed = true
  · have hg : get_same_group_items l t = [] := by
      simp [get_same_group_items, hc]
    have h1 : move_to_top l t = l := by
      unfold move_to_top
      simp [hg]
    rw [h1]
    exact h1
  have hc2 : t.completed = false := by simpa using hc
  by_cases hlen : (get_same_group_items l t).length ≤ 1
  · have h1 : move_to_top l t = l := by
      unfold move_to_top
      rw [if_pos hlen]
    rw [h1]
    exact h1
  by_cases hci : (get_same_group_items l t).indexOf t = 0
  · have h1 := move_to_top_noop_of_group_first l t hci
    rw [h1]
    exact h1
  obtain ⟨g0, gs, hg⟩ : ∃ g0 gs, l.filter (sameGroupPred t) = g0 :: gs := by
    rcases hfe : l.filter (sameGroupPred t) with _ | ⟨g0, gs⟩
    · rw [gsgi_filter hc2, hfe] at hlen
      simp at hlen
    · exact ⟨g0, gs, rfl⟩
  obtain ⟨B, C, hlBC, hBfree, hg0pred, hCfilter⟩ := List.filter_eq_cons_iff.mp hg
  have hBfalse : ∀ x ∈ B, sameGroupPred t x = false := by
    intro x hx
    simpa using hBfree x hx
  have ht_ne_g0 : t ≠ g0 := by
    intro he
    apply hci
    rw [gsgi_filter hc2, hg, he, List.indexOf_cons_self]
  have htC : t ∈ C := by
    have htl : t ∈ l := ht
    rw [hlBC] at htl
    rcases List.mem_append.mp htl with hx | hx
    · exact absurd (sameGroupPred_self hc2) (by simpa using hBfree t hx)
    · rcases List.mem_cons.mp hx with hx | hx
      · exact absurd hx ht_ne_g0
      · exact hx
  obtain ⟨C1, C2, hC⟩ := List.append_of_mem htC
  have hlshape : l = B ++ (g0 :: C1) ++ t :: C2 := by
    rw [hlBC, hC]
    simp
  have hnd2 : (B ++ (g0 :: C1) ++ t :: C2).Nodup := hlshape ▸ hnd
  have h3 : move_to_top l t = B ++ t :: ((g0 :: C1) ++ C2) := by
    rw [hlshape]
    exact move_to_top_compute B C1 C2 g0 t hc2 hBfalse hg0pred ht_ne_g0 hnd2
  rw [h3]
  apply move_to_top_noop_of_group_first
  rw [gsgi_filter hc2]
  simp only [List.cons_append, List.filter_append,
    List.filter_eq_nil_iff.mpr (by simpa using hBfalse),
    List.filter_cons_of_pos (sameGroupPred_self hc2)]
  simp [List.indexOf_cons_self]

theorem move_to_top_perm (l : List TodoItem) (t : TodoItem) (ht : t ∈ l) :
    (move_to_top l t).Perm l := by
  unfold move_to_top
  split
  · exact List.Perm.refl l
  split
  · exact List.Perm.refl l
  split
  · exact List.Perm.refl l
  exact (perm_insertIdx_of_le List.indexOf_le_length).trans
    (List.perm_cons_erase ht).symm

theorem move_up_item_perm (l : List TodoItem) (t : TodoItem) :
    (move_up_item l t).Perm l := by
  unfold move_up_item
  split
  · exact List.Perm.refl l
  split
  · exact List.Perm.refl l
  split
  · exact List.Perm.refl l
  split
  · rename_i a b e1 e2
    exact perm_set_set_swap e1 e2
  · exact List.Perm.refl l

theorem move_to_top_filter_out (l : List TodoItem) (t : TodoItem)
    (q : TodoItem → Bool) (hq : q t = false) :
    (move_to_top l t).filter q = l.filter q := by
  unfold move_to_top
  split
  · rfl
  split
  · rfl
  split
  · rfl
  rw [filter_insertIdx_of_neg hq, filter_erase_of_neg hq]

theorem move_up_item_filter_out (l : List TodoItem) (t : TodoItem)
    (hc : t.completed = false) :
    (move_up_item l t).filter (fun x => !sameGroupPred t x) =
      l.filter (fun x => !sameGroupPred t x) := by
  have hqt : (!sameGroupPred t t) = false := by
    simp [sameGroupPred_self hc]
  unfold move_up_item
  split
  · rfl
  split
  · rfl
  split
  · rfl
  rename_i prev hh
  have hprevmem : prev ∈ get_same_group_items l t := by
    obtain ⟨hlt, he⟩ := List.getElem?_eq_some_iff.mp hh
    exact he ▸ List.getElem_mem hlt
  have hprevpred : sameGroupPred t prev = true := by
    rw [gsgi_filter hc] at hprevmem
    exact (List.mem_filter.mp hprevmem).2
  have hqprev : (!sameGroupPred t prev) = false := by
    simp [hprevpred]
  split
  · rename_i a b e1 e2
    have hat : a = t := by
      obtain ⟨hlt, he⟩ := List.getElem?_eq_some_iff.mp e1
      have hgi := List.getElem_indexOf hlt
      rw [hgi] at he
      exact he.symm
    have hbp : b = prev := by
      obtain ⟨hlt, he⟩ := List.getElem?_eq_some_iff.mp e2
      have hgi := List.getElem_indexOf hlt
      rw [hgi] at he
      exact he.symm
    rw [hat] at e1
    rw [hbp] at e2
    rw [hat, hbp]
    have houter : ∀ x, (l.set (l.indexOf t) prev)[l.indexOf prev]? = some x →
        (!sameGroupPred t x) = false := by
      intro x hx
      rw [List.getElem?_set] at hx
      by_cases hij : l.indexOf t = l.indexOf prev
      · rw [if_pos hij] at hx
        by_cases hlt : l.indexOf t < l.length
        · rw [if_pos hlt] at hx
          have he : prev = x := by simpa using hx
          subst he
          exact hqprev
        · rw [if_neg hlt] at hx
          cases hx
      · rw [if_neg hij, e2] at hx
        have he : prev = x := by simpa using hx
        subst he
        exact hqprev
    have hinner : ∀ x, l[l.indexOf t]? = some x → (!sameGroupPred t x) = false := by
      intro x hx
      rw [e1] at hx
      have he : t = x := by simpa using hx
      subst he
      exact hqt
    rw [@filter_set_of_neg TodoItem (fun x => !sameGroupPred t x) t hqt
        (l.set (l.indexOf t) prev) (l.indexOf prev) houter,
      @filter_set_of_neg TodoItem (fun x => !sameGroupPred t x) prev hqprev
        l (l.indexOf t) hinner]
  · rfl

theorem nodup_pairwise_indexOf {l : List TodoItem} (h : l.Nodup) :
    l.Pairwise (fun a b => l.indexOf a < l.indexOf b) := by
  induction l with
  | nil => exact List.Pairwise.nil
  | cons a tl ih =>
    rcases List.nodup_cons.mp h with ⟨ha, htl⟩
    refine List.Pairwise.cons ?_ ?_
    · intro b hb
      have hab : (a == b) = false := by
        simp only [beq_eq_false_iff_ne]
        intro he
        exact ha (he ▸ hb)
      rw [List.indexOf_cons_self, List.indexOf_cons, hab]
      simp
    · refine (ih htl).imp_of_mem ?_
      intro x y hx hy hr
      have hax : (a == x) = false := by
        simp only [beq_eq_false_iff_ne]
        intro he
        exact ha (he ▸ hx)
      have hay : (a == y) = false := by
        simp only [beq_eq_false_iff_ne]
        intro he
        exact ha (he ▸ hy)
      rw [List.indexOf_cons, hax, List.indexOf_cons, hay]
      simp
      omega

/-- C4 (amended): moveToTop is idempotent on any duplicate-free master list;
and repeating moveUpOne until it is a no-op produces the same final order as
a single moveToTop whenever every task between the first member of the target
task's group and the task itself belongs to the group (master list of the
form A ++ P ++ t :: R with no group member in A and only group members in P):
both relocate t to directly precede the group prefix, yielding
A ++ t :: (P ++ R).  With a non-member interleaved inside the group span the
two operations produce different orders (see the counterexample). -/
theorem c4_move_to_top_idem_and_star_contiguous
    (A P R : List TodoItem) (t : TodoItem)
    (hc : t.completed = false)
    (hA : ∀ x ∈ A, sameGroupPred t x = false)
    (hP : ∀ x ∈ P, sameGroupPred t x = true)
    (hnd : (A ++ P ++ t :: R).Nodup) :
    move_to_top (A ++ P ++ t :: R) t = A ++ t :: (P ++ R)
    ∧ move_up_star (P.length + 1) (A ++ P ++ t :: R) t = A ++ t :: (P ++ R)
    ∧ ∀ (l : List TodoItem) (u : TodoItem), l.Nodup → u ∈ l →
        move_to_top (move_to_top l u) u = move_to_top l u :=
  ⟨move_to_top_shape A P R t hc hA hP hnd,
    move_up_star_shape P A R t hc hA hP hnd,
    fun l u hl hu => move_to_top_idem l u hl hu⟩

/-- Witness for C4: outsider first, then the group prefix, then the target. -/
theorem c4_move_to_top_idem_and_star_contiguous_witness :
    move_to_top ([c4Outsider] ++ [c4First] ++ c4Target :: []) c4Target =
      [c4Outsider] ++ c4Target :: ([c4First] ++ [])
    ∧ move_up_star 2 ([c4Outsider] ++ [c4First] ++ c4Target :: []) c4Target =
      [c4Outsider] ++ c4Target :: ([c4First] ++ []) :=
  ⟨(c4_move_to_top_idem_and_star_contiguous [c4Outsider] [c4First] []
      c4Target (by decide) (by decide) (by decide) (by decide)).1,
    (c4_move_to_top_idem_and_star_contiguous [c4Outsider] [c4First] []
      c4Target (by decide) (by decide) (by decide) (by decide)).2.1⟩

/-- Counterexample for C4 as stated: in the master list
[c4First, c4Outsider, c4Target] the target's group has the two members
c4First and c4Target, with the unrelated c4Outsider between them;
moveUpOne repeated to its fixpoint gives [c4Target, c4Outsider, c4First]
while moveToTop gives [c4Target, c4First, c4Outsider]. -/
theorem c4_star_ne_move_to_top_counterexample :
    get_same_group_items c4Tasks c4Target = [c4First, c4Target]
    ∧ move_up_star 4 c4Tasks c4Target = [c4Target, c4Outsider, c4First]
    ∧ move_up_item (move_up_star 4 c4Tasks c4Target) c4Target =
        move_up_star 4 c4Tasks c4Target
    ∧ move_to_top c4Tasks c4Target = [c4Target, c4First, c4Outsider]
    ∧ move_up_star 4 c4Tasks c4Target ≠ move_to_top c4Tasks c4Target := by
  decide

/-- C8: the reorder operations only permute the master list (no task value is
altered, so no task's fields change), they leave the subsequence of tasks
outside the target's group untouched, and in the concrete scenario of two
same-anchor instant tasks plus one unrelated-anchor task, moveToTop on the
second group member relocates it directly before the first while the
unrelated task keeps its position relative to both. -/
theorem c8_reorder_ops_preserve_fields_and_outsiders
    (l : List TodoItem) (t : TodoItem) (ht : t ∈ l) :
    (move_to_top l t).Perm l
    ∧ (move_up_item l t).Perm l
    ∧ (t.completed = false →
        (move_to_top l t).filter (fun x => !sameGroupPred t x) =
          l.filter (fun x => !sameGroupPred t x)
        ∧ (move_up_item l t).filter (fun x => !sameGroupPred t x) =
          l.filter (fun x => !sameGroupPred t x))
    ∧ move_to_top c8Tasks c8Second = [c8Second, c8First, c8Other] :=
  ⟨move_to_top_perm l t ht, move_up_item_perm l t,
    fun hc => ⟨move_to_top_filter_out l t _ (by simp [sameGroupPred_self hc]),
      move_up_item_filter_out l t hc⟩,
    by decide⟩

/-- Witness for C8 at the concrete scenario list. -/
theorem c8_reorder_ops_preserve_fields_and_outsiders_witness :
    (move_to_top c8Tasks c8Second).Perm c8Tasks
    ∧ (move_to_top c8Tasks c8Second).filter (fun x => !sameGroupPred c8Second x) =
        c8Tasks.filter (fun x => !sameGroupPred c8Second x) :=
  ⟨(c8_reorder_ops_preserve_fields_and_outsiders c8Tasks c8Second (by decide)).1,
    ((c8_reorder_ops_preserve_fields_and_outsiders c8Tasks c8Second
      (by decide)).2.2.1 (by decide)).1⟩

/-- C9: the first (shadowed) definition of the grouping query, which sorts
its filtered result by master-list index, returns exactly the same sequence
as the second (active) definition for every task and every duplicate-free
master list (distinct Python objects never compare equal, so the in-memory
master list is duplicate-free): the filter already lists the group in
master-list order, and a stable sort by strictly increasing keys is the
identity.  The shadowed definition is therefore dead code with no behavioral
difference. -/
theorem c9_shadowed_grouping_equals_active (l : List TodoItem) (t : TodoItem)
    (hnd : l.Nodup) :
    get_same_group_items_first l t = get_same_group_items l t := by
  by_cases hc : t.completed = true
  · simp [get_same_group_items_first, get_same_group_items, hc]
  · have hc2 : t.completed = false := by simpa using hc
    rw [gsgi_filter hc2, gsgi_first_filter hc2]
    apply List.Sorted.insertionSort_eq
    have hpw := nodup_pairwise_indexOf hnd
    have hsub := (List.filter_sublist l : List.Sublist (l.filter (sameGroupPred t)) l)
    exact (List.Pairwise.sublist hsub hpw).imp (fun h => le_of_lt h)

/-- Witness for C9 at the reorder example list. -/
theorem c9_shadowed_grouping_equals_active_witness :
    get_same_group_items_first c4Tasks c4Target =
      get_same_group_items c4Tasks c4Target
    ∧ get_same_group_items c4Tasks c4Target = [c4First, c4Target] :=
  ⟨c9_shadowed_grouping_equals_active c4Tasks c4Target (by decide), by decide⟩

/-- C5 (amended): computing the display ordering mutates the task collection:
`refresh_display` stably re-sorts `todo_items` in place by the priority key,
so master-list positions change whenever the list is not already key-sorted
(see the counterexample).  What does hold: the refresh only permutes the open
list (no task is gained, lost or altered), the completed collection is
untouched, refreshing a second time at the same now is a no-op, and tasks
with equal priority keys (in particular the members of one group) keep their
relative order. -/
theorem c5_amended_refresh_sorts_master_in_place (st : AppState) (now : Int) :
    refresh_display (refresh_display st now) now = refresh_display st now
    ∧ (refresh_display st now).todo_items.Perm st.todo_items
    ∧ (refresh_display st now).completed_items = st.completed_items
    ∧ ∀ k : Option (Nat × Option Int),
        (refresh_display st now).todo_items.filter
            (fun t => decide (get_priority t now = k)) =
          st.todo_items.filter (fun t => decide (get_priority t now = k)) := by
  refine ⟨?_, order_perm st.todo_items now, rfl, ?_⟩
  · have hidem : order (order st.todo_items now) now = order st.todo_items now :=
      List.Sorted.insertionSort_eq (List.sorted_insertionSort _ _)
    simp [refresh_display, order] at hidem ⊢
    exact hidem
  · intro k
    apply insertionSort_filter_invariant
    apply List.pairwise_of_forall_mem_list
    intro a ha b hb
    have h1 : get_priority a now = k := by simpa using (List.mem_filter.mp ha).2
    have h2 : get_priority b now = k := by simpa using (List.mem_filter.mp hb).2
    simp [priorityRel, h1, h2, priority_le_refl]

/-- Counterexample for C5 as stated: with a not-yet-due instant task inserted
before an overdue one, the refresh at now = 50 reorders the master list in
place, so the tasks' master-list positions are not what they were before. -/
theorem c5_refresh_mutates_master_counterexample :
    (refresh_display
        ⟨[⟨3, "c", .instant, some 200, none, false, none, 0⟩,
          ⟨1, "a", .instant, some 0, none, false, none, 0⟩], [], 4⟩ 50).todo_items =
      [⟨1, "a", .instant, some 0, none, false, none, 0⟩,
        ⟨3, "c", .instant, some 200, none, false, none, 0⟩]
    ∧ refresh_display
        ⟨[⟨3, "c", .instant, some 200, none, false, none, 0⟩,
          ⟨1, "a", .instant, some 0, none, false, none, 0⟩], [], 4⟩ 50 ≠
      ⟨[⟨3, "c", .instant, some 200, none, false, none, 0⟩,
        ⟨1, "a", .instant, some 0, none, false, none, 0⟩], [], 4⟩ := by
  decide

/-- C10: toggling a completed task marks it open with a cleared completion
timestamp, removes it from the completed collection and appends it at the end
of the open master list; toggling it a second time therefore restores the
open master list exactly, restores every one of the task's own fields except
that completedAt now holds the new completion time, and appends it at the end
of the completed collection — which in general (second conjunct of the last
clause) is not its former position there. -/
theorem c10_toggle_completion_round_trip (st : AppState) (c : TodoItem)
    (now2 : Int) (hc : c.completed = true)
    (hnotin : { c with completed := false, completed_date := none } ∉ st.todo_items) :
    toggle_completion st c now2 =
      ⟨st.todo_items ++ [{ c with completed := false, completed_date := none }],
        st.completed_items.erase c, st.next_id⟩
    ∧ (∀ now3 : Int,
        toggle_completion (toggle_completion st c now2)
            { c with completed := false, completed_date := none } now3 =
          ⟨st.todo_items,
            st.completed_items.erase c ++ [{ c with completed_date := some now3 }],
            st.next_id⟩)
    ∧ (toggle_completion (toggle_completion ⟨[], [c10C, c10D], 5⟩ c10C 7) 
          { c10C with completed := false, completed_date := none } 9).completed_items =
        [c10D, { c10C with completed_date := some 9 }] := by
  refine ⟨?_, ?_, by decide⟩
  · simp [toggle_completion, hc]
  · intro now3
    have h1 : toggle_completion st c now2 =
        ⟨st.todo_items ++ [{ c with completed := false, completed_date := none }],
          st.completed_items.erase c, st.next_id⟩ := by
      simp [toggle_completion, hc]
    rw [h1]
    simp only [toggle_completion]
    rw [if_pos trivial]
    rw [List.erase_append_right _ hnotin]
    simp [List.erase_cons_head, hc]

/-- Witness for C10 at the concrete two-task completed list. -/
theorem c10_toggle_completion_round_trip_witness :
    toggle_completion ⟨[], [c10C, c10D], 5⟩ c10C 7 =
      ⟨[] ++ [{ c10C with completed := false, completed_date := none }],
        [c10C, c10D].erase c10C, 5⟩
    ∧ toggle_completion (toggle_completion ⟨[], [c10C, c10D], 5⟩ c10C 7)
        { c10C with completed := false, completed_date := none } 9 =
      ⟨[], [c10C, c10D].erase c10C ++ [{ c10C with completed_date := some 9 }], 5⟩ :=
  ⟨(c10_toggle_completion_round_trip ⟨[], [c10C, c10D], 5⟩ c10C 7
      (by decide) (by decide)).1,
    (c10_toggle_completion_round_trip ⟨[], [c10C, c10D], 5⟩ c10C 7
      (by decide) (by decide)).2.1 9⟩

/-- C6: the code contradicts its own surfaced warning ("cannot load saved
data, blank data will be used"): when the open-task array parses but a
completed-task entry is corrupt, the exception is raised after
`self.todo_items` has already been assigned, so the parsed open tasks stay in
memory (and `next_id` keeps its prior value) instead of the whole load being
rejected with an empty task set. -/
theorem c6_corrupt_completed_entry_keeps_loaded_open_tasks :
    load_data ⟨[], [], 1⟩ (some ([some c6Task], [none], 7)) = ⟨[c6Task], [], 1⟩
    ∧ (load_data ⟨[], [], 1⟩ (some ([some c6Task], [none], 7))).todo_items ≠ [] := by
  decide

/-- C2: for a completed instant or long task whose completion offset
diff = completedAt - due lies within six hours in absolute value, the
aggregate export bucket is on-time, while the per-row phrase is still the
signed directional magnitude given by the minutes/hours rule on the absolute
offset ("completed early" for diff < 0, "completed late" for diff ≥ 0; the
day branch is unreachable inside the band).  The last two conjuncts are the
spec's scenario: a span ending at 777600 completed five hours later buckets
on-time yet reads "completed late by 5 hours". -/
theorem c2_on_time_band_keeps_directional_phrase
    (t : TodoItem) (now cd due : Int)
    (hcomp : t.completed = true)
    (hcd : t.completed_date = some cd)
    (hkind : (t.date_type = .instant ∧ t.date1 = some due)
      ∨ (t.date_type = .long ∧ (∃ s, t.date1 = some s) ∧ t.date2 = some due))
    (hband : |cd - due| ≤ 6 * 3600) :
    bucket_of t = some .onTime
    ∧ get_time_info_status t now = some (completedPhrase (cd - due))
    ∧ (cd - due < 0 →
        completedPhrase (cd - due) =
          if -(cd - due) < 3600 then .early .minutes (-(cd - due) / 60)
          else .early .hours (-(cd - due) / 3600))
    ∧ (0 ≤ cd - due →
        completedPhrase (cd - due) =
          if cd - due < 3600 then .late .minutes ((cd - due) / 60)
          else .late .hours ((cd - due) / 3600))
    ∧ bucket_of ⟨9, "s", .long, some 0, some 777600, true, some 795600, 0⟩ =
        some .onTime
    ∧ get_time_info_status ⟨9, "s", .long, some 0, some 777600, true, some 795600, 0⟩
        now = some (.late .hours 5) := by
  obtain ⟨hlo, hhi⟩ := abs_le.mp hband
  refine ⟨?_, ?_, ?_, ?_, by decide, rfl⟩
  · rcases hkind with ⟨hdt, hd1⟩ | ⟨hdt, ⟨s, hs⟩, hd2⟩
    · simp [bucket_of, hdt, hd1, hcd, hband]
      intro hcon
      exact absurd hcon (not_lt.mpr (by simpa using hband))
    · simp [bucket_of, hdt, hd2, hcd, hband]
      intro hcon
      exact absurd hcon (not_lt.mpr (by simpa using hband))
  · rcases hkind with ⟨hdt, hd1⟩ | ⟨hdt, ⟨s, hs⟩, hd2⟩
    · simp [get_time_info_status, hcomp, hcd, hdt, hd1]
    · simp [get_time_info_status, hcomp, hcd, hdt, hs, hd2]
  · intro hneg
    unfold completedPhrase phraseOf
    rw [if_pos hneg]
    split_ifs with h1 h2
    · rfl
    · rfl
    · exact absurd (by omega : -(cd - due) < 86400) h2
  · intro hpos
    unfold completedPhrase phraseOf
    rw [if_neg (by omega)]
    split_ifs with h1 h2
    · rfl
    · rfl
    · exact absurd (by omega : cd - due < 86400) h2

/-- Witness for C2: an instant task due at 0 completed 5000 seconds late. -/
theorem c2_on_time_band_keeps_directional_phrase_witness :
    bucket_of ⟨1, "w", .instant, some 0, none, true, some 5000, 0⟩ = some .onTime
    ∧ get_time_info_status ⟨1, "w", .instant, some 0, none, true, some 5000, 0⟩ 0 =
        some (completedPhrase (5000 - 0)) :=
  ⟨(c2_on_time_band_keeps_directional_phrase
      ⟨1, "w", .instant, some 0, none, true, some 5000, 0⟩ 0 5000 0 rfl rfl
      (Or.inl ⟨rfl, rfl⟩) (by decide)).1,
    (c2_on_time_band_keeps_directional_phrase
      ⟨1, "w", .instant, some 0, none, true, some 5000, 0⟩ 0 5000 0 rfl rfl
      (Or.inl ⟨rfl, rfl⟩) (by decide)).2.1⟩

/-- C3 (amended): for a completion offset of at least one day in magnitude,
the day count in the per-row phrase is floor(s/86400) only for tasks
completed late (diff ≥ 0); for tasks completed early the code takes
`-timedelta.days`, i.e. the negated floor of the signed offset, which equals
ceil(s/86400): floor(s/86400) when a whole number of days, floor + 1
otherwise.  The last two conjuncts lift the phrase to `get_time_info` for
completed instant and long tasks. -/
theorem c3_day_count_floor_late_ceil_early (diff : Int) (h : 86400 ≤ |diff|) :
    (0 ≤ diff → completedPhrase diff = .late .days (diff / 86400))
    ∧ (diff < 0 → completedPhrase diff = .early .days (-(Int.fdiv diff 86400))
        ∧ ((86400 : Int) ∣ diff → -(Int.fdiv diff 86400) = (-diff) / 86400)
        ∧ (¬ (86400 : Int) ∣ diff → -(Int.fdiv diff 86400) = (-diff) / 86400 + 1))
    ∧ (∀ (t : TodoItem) (cd d1 now : Int), t.completed = true →
        t.completed_date = some cd → t.date_type = .instant → t.date1 = some d1 →
        get_time_info_status t now = some (completedPhrase (cd - d1)))
    ∧ (∀ (t : TodoItem) (cd s d2 now : Int), t.completed = true →
        t.completed_date = some cd → t.date_type = .long → t.date1 = some s →
        t.date2 = some d2 →
        get_time_info_status t now = some (completedPhrase (cd - d2))) := by
  refine ⟨?_, ?_, ?_, ?_⟩
  · intro h0
    have hd : 86400 ≤ diff := by rwa [abs_of_nonneg h0] at h
    unfold completedPhrase phraseOf
    rw [if_neg (by omega), if_neg (by omega), if_neg (by omega),
      Int.fdiv_eq_ediv _ (by norm_num)]
  · intro hneg
    have hd : 86400 ≤ -diff := by
      rw [abs_of_neg hneg] at h
      exact h
    refine ⟨?_, ?_, ?_⟩
    · unfold completedPhrase phraseOf
      rw [if_pos hneg, if_neg (by omega), if_neg (by omega)]
    · intro hdvd
      rw [Int.fdiv_eq_ediv _ (by norm_num)]
      omega
    · intro hdvd
      rw [Int.fdiv_eq_ediv _ (by norm_num)]
      omega
  · intro t cd d1 now hcomp hcd hdt hd1
    simp [get_time_info_status, hcomp, hcd, hdt, hd1]
  · intro t cd s d2 now hcomp hcd hdt hs hd2
    simp [get_time_info_status, hcomp, hcd, hdt, hs, hd2]

/-- Witness for C3: one day late shows 1 day, 90000 seconds early shows
2 days, the ceiling of 90000 / 86400. -/
theorem c3_day_count_floor_late_ceil_early_witness :
    completedPhrase 90000 = Status.late .days 1
    ∧ completedPhrase (-90000) = Status.early .days 2 :=
  ⟨((c3_day_count_floor_late_ceil_early 90000 (by decide)).1 (by decide)).trans
      (by decide),
    (((c3_day_count_floor_late_ceil_early (-90000) (by decide)).2.1
      (by decide)).1).trans (by decide)⟩

/-- Counterexample for C3 as stated: an instant task due at 0 completed
90000 seconds early (one day and one hour) shows "completed early by 2 days",
while integer division of the elapsed seconds gives 90000 / 86400 = 1 — so
the early direction does not use floor(s/86400). -/
theorem c3_early_day_count_counterexample :
    get_time_info_status ⟨1, "e", .instant, some 0, none, true, some (-90000), 0⟩ 0 =
      some (.early .days 2)
    ∧ (90000 : Int) / 86400 = 1
    ∧ (2 : Int) ≠ 1 := by
  decide

theorem spansOrdered_append {l : List TodoItem} {x : TodoItem}
    (h : spansOrdered l)
    (hx : x.date_type = .long → ∃ a b, x.date1 = some a ∧ x.date2 = some b ∧ a < b) :
    spansOrdered (l ++ [x]) := by
  intro t ht hlong
  rcases List.mem_append.mp ht with hm | hm
  · exact h t hm hlong
  · have he : t = x := by simpa using hm
    subst he
    exact hx hlong

theorem spansOrdered_modify {l : List TodoItem} {f : TodoItem → TodoItem} {i : Nat}
    (h : spansOrdered l)
    (hf : ∀ t, (f t).date_type = .long →
      ∃ a b, (f t).date1 = some a ∧ (f t).date2 = some b ∧ a < b) :
    spansOrdered (l.modify f i) := by
  intro t ht hlong
  obtain ⟨j, hj, he⟩ := List.mem_iff_getElem.mp ht
  rw [List.getElem_modify] at he
  have hj2 : j < l.length := by simpa using hj
  by_cases hij : i = j
  · rw [if_pos hij] at he
    subst he
    exact hf _ hlong
  · rw [if_neg hij] at he
    subst he
    exact h _ (List.getElem_mem hj2) hlong

/-- C7: a long add or edit whose end does not lie strictly after its start,
or whose date or time text failed to parse, is rejected with the session
state completely unchanged — the task collection and, for an edit, every
field of every record keep their previous values; and any add or edit, with
any input whatsoever, preserves the invariant that every long task in the
master list has both anchors with anchor2 > anchor1. -/
theorem c7_validation_rejects_without_mutation
    (st : AppState) (note : String) (i : Nat) (createdAt : Int) (w : Bool) :
    (∀ sOk eOk s e, e ≤ s →
      add_todo_item st note (.long sOk eOk (some s) (some e)) createdAt = st)
    ∧ (∀ sOk eOk ep, add_todo_item st note (.long sOk eOk none ep) createdAt = st)
    ∧ (∀ sOk eOk sp, add_todo_item st note (.long sOk eOk sp none) createdAt = st)
    ∧ (∀ tOk, add_todo_item st note (.instant tOk none) createdAt = st)
    ∧ (∀ sOk eOk s e, e ≤ s →
      save_changes st i note w (.long sOk eOk (some s) (some e)) = st)
    ∧ (∀ sOk eOk ep, save_changes st i note w (.long sOk eOk none ep) = st)
    ∧ (∀ sOk eOk sp, save_changes st i note w (.long sOk eOk sp none) = st)
    ∧ (∀ tOk, save_changes st i note w (.instant tOk none) = st)
    ∧ (spansOrdered st.todo_items →
        ∀ inp, spansOrdered (add_todo_item st note inp createdAt).todo_items
          ∧ spansOrdered (save_changes st i note w inp).todo_items) := by
  refine ⟨?_, ?_, ?_, ?_, ?_, ?_, ?_, ?_, ?_⟩
  · intro sOk eOk s e hle
    simp [add_todo_item, hle]
  · intro sOk eOk ep
    simp [add_todo_item]
  · intro sOk eOk sp
    cases sp with
    | none => simp [add_todo_item]
    | some s => simp [add_todo_item]
  · intro tOk
    simp [add_todo_item]
  · intro sOk eOk s e hle
    simp [save_changes, hle]
  · intro sOk eOk ep
    simp [save_changes]
  · intro sOk eOk sp
    cases sp with
    | none => simp [save_changes]
    | some s => simp [save_changes]
  · intro tOk
    simp [save_changes]
  · intro hspan inp
    constructor
    · cases inp with
      | instant tOk parsed =>
        cases parsed with
        | none =>
          simp only [add_todo_item]
          split_ifs <;> exact hspan
        | some d =>
          simp only [add_todo_item]
          split_ifs
          · exact hspan
          · exact hspan
          · exact spansOrdered_append hspan (by intro hdt; cases hdt)
      | long sOk eOk sp ep =>
        rcases sp with _ | sv
        · simp only [add_todo_item]
          split_ifs <;> exact hspan
        rcases ep with _ | ev
        · simp only [add_todo_item]
          split_ifs <;> exact hspan
        simp only [add_todo_item]
        split_ifs with h1 h2 h3
        · exact hspan
        · exact hspan
        · exact hspan
        · exact spansOrdered_append hspan
            (by intro _; exact ⟨sv, ev, rfl, rfl, by omega⟩)
      | timeless =>
        simp only [add_todo_item]
        split_ifs
        · exact hspan
        · exact spansOrdered_append hspan (by intro hdt; cases hdt)
    · cases inp with
      | instant tOk parsed =>
        cases parsed with
        | none =>
          simp only [save_changes]
          split_ifs <;> exact hspan
        | some d =>
          simp only [save_changes]
          split_ifs
          · exact hspan
          · exact hspan
          · exact hspan
          · exact spansOrdered_modify hspan (by intro t hdt; cases hdt)
      | long sOk eOk sp ep =>
        rcases sp with _ | sv
        · simp only [save_changes]
          split_ifs <;> exact hspan
        rcases ep with _ | ev
        · simp only [save_changes]
          split_ifs <;> exact hspan
        simp only [save_changes]
        split_ifs with h1 h2 h3 h4
        · exact hspan
        · exact hspan
        · exact hspan
        · exact hspan
        · exact spansOrdered_modify hspan
            (by intro t _; exact ⟨sv, ev, rfl, rfl, by omega⟩)
      | timeless =>
        simp only [save_changes]
        split_ifs
        · exact hspan
        · exact hspan
        · exact spansOrdered_modify hspan (by intro t hdt; cases hdt)

/-- Witness for C7: a rejected long add with end equal to start leaves a
one-task state unchanged, and the span invariant holds after a successful
long add. -/
theorem c7_validation_rejects_without_mutation_witness :
    add_todo_item ⟨[c6Task], [], 2⟩ "n" (.long true true (some 5) (some 5)) 0 =
      ⟨[c6Task], [], 2⟩
    ∧ spansOrdered (add_todo_item ⟨[c6Task], [], 2⟩ "n"
        (.long true true (some 5) (some 9)) 0).todo_items :=
  ⟨(c7_validation_rejects_without_mutation ⟨[c6Task], [], 2⟩ "n" 0 0 true).1
      true true 5 5 (by decide),
    ((c7_validation_rejects_without_mutation ⟨[c6Task], [], 2⟩ "n" 0 0 true).2.2.2.2.2.2.2.2
      (by intro t ht hdt
          simp only [c6Task] at ht
          have he : t = ⟨1, "a", .instant, some 0, none, false, none, 0⟩ := by
            simpa using ht
          rw [he] at hdt
          cases hdt)
      (.long true true (some 5) (some 9))).1⟩

end TaskFlow
